import Mathlib

/-!
Verification of the peer-discovery / address-management core
(`src/server/node_discovery.py`) against its natural-language specification.

The Python code is shallowly embedded: pure fragments become Lean functions,
the per-iteration bodies of the long-lived asyncio loops become explicit
step functions, and fallible control flow becomes `Except` / `Option`.
Machine timestamps are modelled as `Nat` (or `Int` where the code can
subtract into the past) and the microsecond clock of the feeler scheduler
as `ℝ`.
-/

namespace NodeDiscovery

/-- `src.types.peer_info.PeerInfo` as used by `node_discovery.py`:
a host string and a port.  Equality is structural (Python `==`). -/
structure PeerInfo where
  host : String
  port : Nat
  deriving DecidableEq, Repr

/-- `src.types.peer_info.TimestampedPeerInfo`: a peer endpoint together with
a 64-bit `timestamp` (seconds since epoch), modelled as `Nat`. -/
structure TimestampedPeerInfo where
  host : String
  port : Nat
  timestamp : Nat
  deriving DecidableEq, Repr

/-- `src.server.outbound_message.NodeType` (the constructors used here). -/
inductive NodeType where
  | fullNode
  | wallet
  | introducer
  deriving DecidableEq, Repr

/-- `src.server.outbound_message.Delivery` (the constructors used here). -/
inductive Delivery where
  | respond
  | broadcast
  | specific
  deriving DecidableEq, Repr

/-- `src.server.outbound_message.OutboundMessage` as produced by
`node_discovery.py`: a node type, a message name with its peer-list payload,
a delivery mode, and (for `Delivery.specific`) a target node id. -/
structure OutboundMessage where
  nodeType : NodeType
  msgName : String
  peerList : List TimestampedPeerInfo
  delivery : Delivery
  target : Option Nat
  deriving DecidableEq, Repr

/-! ### `FullNodePeers.request_peers` (node_discovery.py lines 384-423)

The handler computes `is_outbound` by comparing `peer_info` against the
peer infos of `get_outbound_connections()`; **if `is_outbound` it returns
without yielding anything**; otherwise it yields a full-node message and a
wallet message, both `respond_peers_full_node` with the gossip sample and
`Delivery.RESPOND`. -/

/-- Embedding of `FullNodePeers.request_peers`.  `outbound` is the list of
peer infos of the current outbound connections and `peers` the gossip
sample returned by `address_manager.get_peers()`.  The result is the list
of messages the generator yields. -/
def requestPeers (outbound : List PeerInfo) (peerInfo : PeerInfo)
    (peers : List TimestampedPeerInfo) : List OutboundMessage :=
  if peerInfo ∈ outbound then
    []
  else
    [ ⟨NodeType.fullNode, "respond_peers_full_node", peers, Delivery.respond, none⟩,
      ⟨NodeType.wallet, "respond_peers_full_node", peers, Delivery.respond, none⟩ ]

/-! ### Store actions (startup / periodic serialization / close)

`initialize_address_manager` (lines 56-64), `_periodically_serialize`
(lines 261-266) and `_close_common` (lines 72-77).  Only the sequence of
operations against the `AddressManagerStore` / db connection matters for
the claims, so each routine is embedded as the list of store actions it
performs. -/

/-- Operations `FullNodeDiscovery` performs against its persistent store
and its background tasks. -/
inductive StoreAction where
  | serializeStore
  | clearStore
  | deserializeStore
  | closeDB
  | cancelTask
  deriving DecidableEq, Repr

/-- Store actions of `initialize_address_manager`, as a function of whether
`address_manager_store.is_empty()` returned true: a non-empty snapshot is
deserialized; otherwise the store is cleared and a fresh manager is built. -/
def startupStoreActions (storeEmpty : Bool) : List StoreAction :=
  if storeEmpty then [StoreAction.clearStore] else [StoreAction.deserializeStore]

/-- Store actions of one `_periodically_serialize` iteration (after the
random sleep, the manager is serialized under the manager lock). -/
def serializeIterActions : List StoreAction :=
  [StoreAction.serializeStore]

/-- `random.randint(15 * 60, 30 * 60)` of `_periodically_serialize`,
as a function of the underlying random draw: a value in `[900, 1800]`
(Python `randint` is inclusive on both ends). -/
def serializeInterval (r : Nat) : Nat :=
  15 * 60 + r % (15 * 60 + 1)

/-- Store actions of `_close_common`: the three background tasks are
cancelled and the db connection is closed.  No serialization happens. -/
def closeCommonActions : List StoreAction :=
  [StoreAction.cancelTask, StoreAction.cancelTask, StoreAction.cancelTask,
    StoreAction.closeDB]

/-! ### Loop-body exception handling (claim C3)

Which long-lived loops wrap their iteration body in `try/except`:
`_process_messages` (lines 84-115), `_periodically_self_advertise`
(lines 343-373) and `_address_relay` (lines 435-484) do;
`_connect_to_peers` (lines 154-259) and `_periodically_serialize`
(lines 262-266) do not, so an exception there escapes the iteration and
terminates the task. -/

/-- The five long-lived loops started by the discovery subsystem. -/
inductive LoopKind where
  | processMessages
  | connectToPeers
  | periodicallySerialize
  | selfAdvertise
  | addressRelay
  deriving DecidableEq, Repr

/-- Outcome of one loop iteration: either the loop continues to its next
iteration, or the exception escapes and the loop task dies. -/
inductive IterOutcome where
  | continues
  | crashed (msg : String)
  deriving DecidableEq, Repr

/-- How each loop treats the result of one iteration body, transcribed from
the presence or absence of a `try/except` around the body in the source. -/
def iterOutcome : LoopKind → Except String Unit → IterOutcome
  | LoopKind.processMessages, Except.ok _ => IterOutcome.continues
  | LoopKind.processMessages, Except.error _ => IterOutcome.continues
  | LoopKind.connectToPeers, Except.ok _ => IterOutcome.continues
  | LoopKind.connectToPeers, Except.error e => IterOutcome.crashed e
  | LoopKind.periodicallySerialize, Except.ok _ => IterOutcome.continues
  | LoopKind.periodicallySerialize, Except.error e => IterOutcome.crashed e
  | LoopKind.selfAdvertise, Except.ok _ => IterOutcome.continues
  | LoopKind.selfAdvertise, Except.error _ => IterOutcome.continues
  | LoopKind.addressRelay, Except.ok _ => IterOutcome.continues
  | LoopKind.addressRelay, Except.error _ => IterOutcome.continues

/-! ### `_respond_peers_common` (lines 268-296) -/

/-- Timestamp sanitization applied to each incoming peer: a timestamp
strictly below `100000000` or strictly above `now + 600` is replaced by
`now - 5 * 24 * 60 * 60`; otherwise the peer is kept unchanged. -/
def sanitizePeer (now : Nat) (peer : TimestampedPeerInfo) : TimestampedPeerInfo :=
  if peer.timestamp < 100000000 ∨ peer.timestamp > now + 10 * 60 then
    ⟨peer.host, peer.port, now - 5 * 24 * 60 * 60⟩
  else
    peer

/-- The per-peer adjustment of `_respond_peers_common`: the sanitized peer
when the list came from a full node, and `(host, port, 0)` otherwise. -/
def adjustPeer (now : Nat) (isFullNode : Bool) (peer : TimestampedPeerInfo) :
    TimestampedPeerInfo :=
  if isFullNode then sanitizePeer now peer else ⟨peer.host, peer.port, 0⟩

/-- Embedding of `_respond_peers_common`: the adjusted peer list together
with the `(source, penalty)` pair passed to `add_to_new_table`
(`(peer_src, 2 * 60 * 60)` for a full-node source, `(None, 0)` otherwise). -/
def respondPeersCommon (now : Nat) (peerList : List TimestampedPeerInfo)
    (peerSrc : Option PeerInfo) (isFullNode : Bool) :
    List TimestampedPeerInfo × Option PeerInfo × Nat :=
  (peerList.map (adjustPeer now isFullNode),
    if isFullNode then (peerSrc, 2 * 60 * 60) else (none, 0))

/-! ### `FullNodePeers._address_relay` (lines 434-484)

For each `(relay_peer, num_peers)` drawn from the relay queue the loop hashes
`key ‖ peer_info.get_key() ‖ cur_day` for every connected full-node
neighbour, sorts ascending by the hash and walks the first `num_peers`
entries.  `std_hash` and `get_key` live outside `src/`, so the hash is kept
abstract as a parameter `H` taking the secret key, the neighbour's peer
info and the current day. -/

/-- A full-node connection as seen by the relay loop: its peer info and its
(optional, not yet finalized) session `node_id`. -/
structure Connection where
  peerInfo : PeerInfo
  nodeId : Option Nat
  deriving DecidableEq, Repr

/-- `int(time.time()) // (24 * 60 * 60)` of `_address_relay`. -/
def curDay (now : Nat) : Nat :=
  now / (24 * 60 * 60)

/-- The per-neighbour relay hash
`std_hash(key.to_bytes(32) + peer_info.get_key() + cur_day.to_bytes(3))`,
with the hash primitive abstracted as `H`. -/
def relayHash (H : Nat → PeerInfo → Nat → Nat) (key day : Nat) (c : Connection) : Nat :=
  H key c.peerInfo day

/-- The `hashes` list built by `_address_relay`: each connection paired with
its relay hash. -/
def relayPairs (H : Nat → PeerInfo → Nat → Nat) (key day : Nat)
    (conns : List Connection) : List (Nat × Connection) :=
  conns.map fun c => (relayHash H key day c, c)

/-- `hashes.sort(key=lambda x: x[0])`: the pair list sorted ascending by
hash (a stable sort, as in Python). -/
def relaySorted (H : Nat → PeerInfo → Nat → Nat) (key day : Nat)
    (conns : List Connection) : List (Nat × Connection) :=
  (relayPairs H key day conns).mergeSort fun a b => decide (a.1 ≤ b.1)

/-- The neighbours the relay loop walks: the first `numPeers` connections of
the hash-sorted list (`if index >= num_peers: break`). -/
def chooseNeighbours (H : Nat → PeerInfo → Nat → Nat) (key day numPeers : Nat)
    (conns : List Connection) : List Connection :=
  ((relaySorted H key day conns).take numPeers).map Prod.snd

/-! ### Neighbour-known bookkeeping and the per-neighbour relay step
(lines 456-481) -/

/-- `self.neighbour_known_peers`: a finite map from `(host, port)` pairs to
the set of peer hosts already advertised to that neighbour. -/
abbrev KnownPeers := List ((String × Nat) × List String)

/-- Python `dict` lookup on the neighbour-known map. -/
def lookupKnown : KnownPeers → String × Nat → Option (List String)
  | [], _ => none
  | e :: rest, pair => if e.1 = pair then some e.2 else lookupKnown rest pair

/-- `neighbour_known_peers[pair].add(host)`: add `h` to the set stored at
`pair` (a no-op when already present, as for a Python set). -/
def addKnownHost : KnownPeers → String × Nat → String → KnownPeers
  | [], _, _ => []
  | e :: rest, pair, h =>
    if e.1 = pair then (if h ∈ e.2 then e else (e.1, h :: e.2)) :: rest
    else e :: addKnownHost rest pair h

/-- `pair in neighbour_known_peers and host in neighbour_known_peers[pair]`. -/
def knownContains (m : KnownPeers) (pair : String × Nat) (h : String) : Bool :=
  match lookupKnown m pair with
  | none => false
  | some s => decide (h ∈ s)

/-- One iteration of the `for index, (_, connection) in enumerate(hashes)`
body of `_address_relay` for a chosen connection `c`: skip when the relay
host is already known to the neighbour; otherwise record it (creating the
entry when absent) and, if the connection has a finalized `node_id`, emit
the single-peer `respond_peers_full_node` message addressed to it. -/
def relayToNeighbour (m : KnownPeers) (relayPeer : TimestampedPeerInfo)
    (c : Connection) : KnownPeers × Option OutboundMessage :=
  let pair := (c.peerInfo.host, c.peerInfo.port)
  if knownContains m pair relayPeer.host then (m, none)
  else
    let m1 := if (lookupKnown m pair).isNone then (pair, []) :: m else m
    let m2 := addKnownHost m1 pair relayPeer.host
    match c.nodeId with
    | none => (m2, none)
    | some nid =>
      (m2, some ⟨NodeType.fullNode, "respond_peers_full_node", [relayPeer],
        Delivery.specific, some nid⟩)

/-! ### Feeler scheduling (`_connect_to_peers` lines 184-191,
`_poisson_next_send` lines 128-134, `_num_needed_peers` lines 117-120)

The scheduler works on a microsecond clock (`time.time() * 1000 * 1000`)
modelled as `ℝ`; the uniform draw `random.randrange(1 << 48)` is the
natural-number parameter `r`. -/

/-- `_num_needed_peers`: the outbound deficit, floored at zero. -/
def numNeededPeers (target outboundCount : Nat) : Nat :=
  let diff : Int := (target : Int) - (outboundCount : Int)
  if 0 ≤ diff then diff.toNat else 0

/-- `_poisson_next_send(now, avg_interval_seconds, random)`, transcribed
literally: `now + (log(r * -0.0000000000000035527136788 + 1)
* avg_interval_seconds * -1000000.0 + 0.5)` on the microsecond clock. -/
noncomputable def poissonNextSend (now avgIntervalSeconds : ℝ) (r : Nat) : ℝ :=
  now + (Real.log ((r : ℝ) * -0.0000000000000035527136788 + 1)
    * avgIntervalSeconds * -1000000.0 + 0.5)

open Classical in
/-- The feeler decision at the top of a `_connect_to_peers` iteration:
a feeler fires exactly when the outbound deficit is zero and the clock has
passed `next_feeler`; firing reschedules `next_feeler` by
`_poisson_next_send(now, 240, random)`. -/
noncomputable def feelerStep (needed : Nat) (nowMicros nextFeeler : ℝ) (r : Nat) :
    Bool × ℝ :=
  if needed = 0 ∧ nextFeeler < nowMicros then
    (true, poissonNextSend nowMicros 240 r)
  else
    (false, nextFeeler)

/-! ### The candidate-selection loop of `_connect_to_peers` (lines 195-242)

`addr.get_group()` (from `src.types.peer_info`, outside `src/`) is kept
abstract as a parameter `G`.  Each consumed element of `cands` is one
candidate selection (`select_tried_collision` / `select_peer`); an empty
list models the selection returning `None`. -/

/-- A selected candidate: its peer info and the `last_try` field of the
`ExtendedPeerInfo`. -/
structure CandidateInfo where
  peer : PeerInfo
  lastTry : Int
  deriving DecidableEq, Repr

/-- `max_tries` as a function of the number of represented network groups:
50 by default, 10 below 3 groups, 25 at 3-5 groups. -/
def maxTriesFor (numGroups : Nat) : Nat :=
  if numGroups < 3 then 10 else if numGroups ≤ 5 then 25 else 50

/-- The rejection test applied to a selected candidate, in source order:
non-feeler with an already-represented group; already connected; tried
within the last hour while fewer than 30 tries were made; equal to the
local endpoint. -/
def candidateReject (G : PeerInfo → Nat) (isFeeler : Bool) (groups : List Nat)
    (connected : List PeerInfo) (now : Int) (localPeer : Option PeerInfo)
    (tries : Nat) (cand : CandidateInfo) : Bool :=
  (!isFeeler && decide (G cand.peer ∈ groups))
    || decide (cand.peer ∈ connected)
    || (decide (now - cand.lastTry < 3600) && decide (tries < 30))
    || decide (localPeer = some cand.peer)

/-- The `while not got_peer` selection loop: `tries` is incremented, the
loop breaks once `tries` exceeds `maxTries`, one candidate is selected and
either rejected (continue) or accepted (`got_peer`).  Returns the accepted
address (if any) and the number of candidate selections performed. -/
def selectLoop (G : PeerInfo → Nat) (isFeeler : Bool) (groups : List Nat)
    (connected : List PeerInfo) (now : Int) (localPeer : Option PeerInfo)
    (maxTries : Nat) : List CandidateInfo → Nat → Option PeerInfo × Nat
  | [], _ => (none, 0)
  | c :: rest, tries =>
    if maxTries < tries + 1 then (none, 0)
    else if candidateReject G isFeeler groups connected now localPeer (tries + 1) c then
      let r := selectLoop G isFeeler groups connected now localPeer maxTries rest (tries + 1)
      (r.1, r.2 + 1)
    else (some c.peer, 1)

/-! ### The `update_connection_time` rate limit of `_process_messages`
(lines 96-101)

`connection_time_pretest` is a dict from host to the last recorded time.
An event for an absent host first records `now`; then `connect` fires only
when `now` minus the recorded time exceeds 60 seconds, in which case the
recorded time is reset to `now`. -/

/-- The `connection_time_pretest` dict. -/
abbrev Pretest := List (String × Int)

/-- Python `dict` lookup on `connection_time_pretest`. -/
def lookupPretest : Pretest → String → Option Int
  | [], _ => none
  | e :: rest, h => if e.1 = h then some e.2 else lookupPretest rest h

/-- `connection_time_pretest[host] = v` for a host already present. -/
def setPretest : Pretest → String → Int → Pretest
  | [], _, _ => []
  | e :: rest, h, v => if e.1 = h then (h, v) :: rest else e :: setPretest rest h v

/-- The `update_connection_time` branch of `_process_messages` for one
event `(host, now)`: returns whether `address_manager.connect` was invoked
and the updated dict. -/
def updateConnTimeStep (p : Pretest) (host : String) (now : Int) : Bool × Pretest :=
  let p1 := if (lookupPretest p host).isNone then (host, now) :: p else p
  let r := (lookupPretest p1 host).getD now
  if now - r > 60 then (true, setPretest p1 host now) else (false, p1)

/-- The per-host abstraction of one `update_connection_time` event:
`recorded = none` models an absent host (which first records `now`). -/
def connStep (recorded : Option Int) (now : Int) : Bool × Int :=
  let r := recorded.getD now
  if now - r > 60 then (true, now) else (false, r)

/-- Process a list of `update_connection_time` events `(host, now)` against
the dict, returning the trace of events tagged with whether each one
invoked `connect`. -/
def processEvents : Pretest → List (String × Int) → List (String × Int × Bool)
  | _, [] => []
  | p, (h, t) :: es =>
    let s := updateConnTimeStep p h t
    (h, t, s.1) :: processEvents s.2 es

/-- The times at which `connect` fired for `host` along an event trace
started from an empty dict. -/
def connectTimesFor (host : String) (events : List (String × Int)) : List Int :=
  ((processEvents [] events).filter fun e => decide (e.1 = host) && e.2.2).map
    fun e => e.2.1

/-- Single-host run of `connStep` over the event times for one host. -/
def connRun : Option Int → List Int → List (Int × Bool)
  | _, [] => []
  | rec, t :: ts =>
    let s := connStep rec t
    (t, s.1) :: connRun (some s.2) ts

/-- The connect times of a single-host run. -/
def connTimes (rec : Option Int) (ts : List Int) : List Int :=
  ((connRun rec ts).filter fun e => e.2).map fun e => e.1

/-! ## Theorems -/

/-- C1 counterexample: a requester that **is** among the current outbound
connections receives no messages from `request_peers`, refuting the claim
that the handler responds exactly to outbound peers. -/
theorem requestPeers_outbound_gets_no_reply :
    requestPeers [⟨"127.0.0.1", 8444⟩] ⟨"127.0.0.1", 8444⟩
        [⟨"10.0.0.1", 8444, 1600000000⟩] = [] ∧
    (⟨"127.0.0.1", 8444⟩ : PeerInfo) ∈ [(⟨"127.0.0.1", 8444⟩ : PeerInfo)] := by
  constructor
  · decide
  · exact List.mem_singleton.mpr rfl

/-- C1 (amended): `request_peers` yields no response when the requester is
among the current outbound connections, and yields the full-node and wallet
`respond_peers_full_node` messages carrying the gossip sample otherwise. -/
theorem requestPeers_spec :
    ∀ (outbound : List PeerInfo) (peerInfo : PeerInfo)
      (peers : List TimestampedPeerInfo),
      (peerInfo ∈ outbound → requestPeers outbound peerInfo peers = []) ∧
      (peerInfo ∉ outbound →
        requestPeers outbound peerInfo peers =
          [⟨NodeType.fullNode, "respond_peers_full_node", peers, Delivery.respond, none⟩,
            ⟨NodeType.wallet, "respond_peers_full_node", peers, Delivery.respond, none⟩]) := by
  intro outbound peerInfo peers
  constructor <;> intro h <;> simp [requestPeers, h]

/-- C1 witness: both branches of `requestPeers_spec` at concrete inputs. -/
theorem requestPeers_spec_witness :
    requestPeers [⟨"127.0.0.1", 8444⟩] ⟨"127.0.0.1", 8444⟩ [] = [] ∧
    requestPeers [] ⟨"127.0.0.1", 8444⟩ [] =
      [⟨NodeType.fullNode, "respond_peers_full_node", [], Delivery.respond, none⟩,
        ⟨NodeType.wallet, "respond_peers_full_node", [], Delivery.respond, none⟩] :=
  ⟨(requestPeers_spec [⟨"127.0.0.1", 8444⟩] ⟨"127.0.0.1", 8444⟩ []).1 (by decide),
    (requestPeers_spec [] ⟨"127.0.0.1", 8444⟩ []).2 (by decide)⟩

/-- C2 counterexample: `_close_common` performs no serialization of the
address manager, refuting the claim that the state is serialized on
orderly shutdown. -/
theorem close_common_does_not_serialize :
    decide (StoreAction.serializeStore ∈ closeCommonActions) = false := by
  decide

/-- C2 (amended): the address manager is serialized on a random interval
drawn from [15 min, 30 min] while running, and restored on startup exactly
when a non-empty snapshot exists; `_close_common` cancels the tasks and
closes the db connection without a final serialization. -/
theorem serialization_schedule_spec :
    (∀ r : Nat, 15 * 60 ≤ serializeInterval r ∧ serializeInterval r ≤ 30 * 60) ∧
    StoreAction.serializeStore ∈ serializeIterActions ∧
    decide (StoreAction.serializeStore ∈ closeCommonActions) = false ∧
    (∀ storeEmpty : Bool,
      (StoreAction.deserializeStore ∈ startupStoreActions storeEmpty ↔
        storeEmpty = false)) := by
  refine ⟨fun r => ?_, by decide, by decide, fun storeEmpty => ?_⟩
  · have h : r % (15 * 60 + 1) < 15 * 60 + 1 := Nat.mod_lt r (by norm_num)
    unfold serializeInterval
    omega
  · cases storeEmpty <;> simp [startupStoreActions]

/-- C2 witness: the interval bounds of `serialization_schedule_spec` at a
concrete draw, and the startup restore condition at a concrete flag. -/
theorem serialization_schedule_spec_witness :
    (15 * 60 ≤ serializeInterval 1000 ∧ serializeInterval 1000 ≤ 30 * 60) ∧
    StoreAction.deserializeStore ∈ startupStoreActions false :=
  ⟨serialization_schedule_spec.1 1000,
    (serialization_schedule_spec.2.2.2 false).mpr rfl⟩

/-- C3 counterexample: the `_connect_to_peers` and `_periodically_serialize`
loop bodies are not wrapped, so an exception in one iteration crashes the
loop task instead of letting it continue — refuting the claim that every
long-lived loop body is wrapped. -/
theorem unwrapped_loops_crash :
    iterOutcome LoopKind.connectToPeers (Except.error "dial failed") =
      IterOutcome.crashed "dial failed" ∧
    iterOutcome LoopKind.periodicallySerialize (Except.error "db write failed") =
      IterOutcome.crashed "db write failed" ∧
    decide (IterOutcome.crashed "dial failed" = IterOutcome.continues) = false := by
  exact ⟨rfl, rfl, by decide⟩

/-- C3 (amended): the message-processing, self-advertise and address-relay
loop bodies are wrapped so a failed iteration is logged and the loop
continues, but the discovery/connect loop and the periodic-serialization
loop are not wrapped: an exception there escapes and terminates the loop. -/
theorem loop_exception_policy_spec :
    (∀ r, iterOutcome LoopKind.processMessages r = IterOutcome.continues) ∧
    (∀ r, iterOutcome LoopKind.selfAdvertise r = IterOutcome.continues) ∧
    (∀ r, iterOutcome LoopKind.addressRelay r = IterOutcome.continues) ∧
    (∀ e, iterOutcome LoopKind.connectToPeers (Except.error e) =
      IterOutcome.crashed e) ∧
    (∀ e, iterOutcome LoopKind.periodicallySerialize (Except.error e) =
      IterOutcome.crashed e) := by
  refine ⟨fun r => ?_, fun r => ?_, fun r => ?_, fun e => rfl, fun e => rfl⟩ <;>
    cases r <;> rfl

/-- C3 witness: `loop_exception_policy_spec` at concrete iteration results. -/
theorem loop_exception_policy_spec_witness :
    iterOutcome LoopKind.processMessages (Except.error "bad message") =
      IterOutcome.continues ∧
    iterOutcome LoopKind.connectToPeers (Except.error "dial refused") =
      IterOutcome.crashed "dial refused" :=
  ⟨loop_exception_policy_spec.1 (Except.error "bad message"),
    loop_exception_policy_spec.2.2.2.1 "dial refused"⟩

/-- C4 counterexample: with `now = 200000000`, a timestamp of exactly
`10^8` is **kept** by the ingest sanitization (the comparison is strict),
refuting the claim that exactly `10^8` is invalid and replaced with
`now - 5 days`. -/
theorem timestamp_exactly_1e8_is_kept :
    sanitizePeer 200000000 ⟨"10.0.0.1", 8444, 100000000⟩ =
      ⟨"10.0.0.1", 8444, 100000000⟩ ∧
    decide ((100000000 : Nat) = 200000000 - 5 * 24 * 60 * 60) = false := by
  exact ⟨by decide, by decide⟩

/-- C4 (amended): on ingest, a timestamp in `[10^8, now + 600]` (both ends
inclusive, so exactly `10^8` and exactly `now + 600` are valid and kept) is
preserved, and a timestamp strictly outside that interval (in particular
`now + 601`) is replaced with `now - 5 days`. -/
theorem timestamp_sanitization_spec :
    ∀ (now : Nat) (peer : TimestampedPeerInfo),
      (100000000 ≤ peer.timestamp → peer.timestamp ≤ now + 10 * 60 →
        sanitizePeer now peer = peer) ∧
      (peer.timestamp < 100000000 ∨ now + 10 * 60 < peer.timestamp →
        sanitizePeer now peer = ⟨peer.host, peer.port, now - 5 * 24 * 60 * 60⟩) := by
  intro now peer
  constructor
  · intro h1 h2
    simp only [sanitizePeer]
    rw [if_neg (by omega)]
  · intro h
    simp only [sanitizePeer]
    rw [if_pos (by omega)]

/-- C4 witness: `timestamp_sanitization_spec` at the three boundary
timestamps `10^8` (kept), `now + 600` (kept) and `now + 601` (sanitized),
with `now = 200000000`. -/
theorem timestamp_sanitization_spec_witness :
    sanitizePeer 200000000 ⟨"h", 1, 100000000⟩ = ⟨"h", 1, 100000000⟩ ∧
    sanitizePeer 200000000 ⟨"h", 1, 200000600⟩ = ⟨"h", 1, 200000600⟩ ∧
    sanitizePeer 200000000 ⟨"h", 1, 200000601⟩ =
      ⟨"h", 1, 200000000 - 5 * 24 * 60 * 60⟩ :=
  ⟨(timestamp_sanitization_spec 200000000 ⟨"h", 1, 100000000⟩).1 (by norm_num)
      (by norm_num),
    (timestamp_sanitization_spec 200000000 ⟨"h", 1, 200000600⟩).1 (by norm_num)
      (by norm_num),
    (timestamp_sanitization_spec 200000000 ⟨"h", 1, 200000601⟩).2
      (Or.inr (by norm_num))⟩

/-- C9 (confirmed): a peer list received from a wallet source
(`is_full_node = false`) has every stored timestamp replaced with 0, and
`add_to_new_table` is invoked with source `None` and penalty 0. -/
theorem wallet_source_zero_timestamp :
    ∀ (now : Nat) (peerList : List TimestampedPeerInfo) (peerSrc : Option PeerInfo),
      respondPeersCommon now peerList peerSrc false =
        (peerList.map fun p => ⟨p.host, p.port, 0⟩, none, 0) := by
  intro now peerList peerSrc
  simp [respondPeersCommon, adjustPeer]

/-- The rescheduled feeler time lands strictly after `now`: the uniform
draw `r < 2^48` makes `r * -0.0000000000000035527136788 + 1` lie in
`(0, 1]`, so the log term is nonpositive and the increment is at least
the `+ 0.5` microsecond rounding offset. -/
theorem poissonNextSend_gt (now : ℝ) (r : Nat) (hr : r < 2 ^ 48) :
    now < poissonNextSend now 240 r := by
  unfold poissonNextSend
  have h1 : (r : ℝ) < 2 ^ 48 := by exact_mod_cast hr
  have hc : (0 : ℝ) ≤ 0.0000000000000035527136788 := by norm_num
  have h2 : (2 : ℝ) ^ 48 * 0.0000000000000035527136788 < 1 := by norm_num
  have h3 : (r : ℝ) * 0.0000000000000035527136788 ≤
      2 ^ 48 * 0.0000000000000035527136788 :=
    mul_le_mul_of_nonneg_right (le_of_lt h1) hc
  have hx0 : (0 : ℝ) < (r : ℝ) * -0.0000000000000035527136788 + 1 := by nlinarith
  have hx1 : (r : ℝ) * -0.0000000000000035527136788 + 1 ≤ 1 := by
    have : (0 : ℝ) ≤ (r : ℝ) * 0.0000000000000035527136788 :=
      mul_nonneg (Nat.cast_nonneg r) hc
    nlinarith
  have hlog : Real.log ((r : ℝ) * -0.0000000000000035527136788 + 1) ≤ 0 :=
    Real.log_nonpos (le_of_lt hx0) hx1
  nlinarith

/-- C7 (confirmed): an iteration is a feeler exactly when the outbound
deficit is zero and the clock has passed the scheduled next-feeler time;
a non-firing step leaves the schedule untouched; a firing step reschedules
by `_poisson_next_send(now, 240, r)`, which (for any draw `r < 2^48`)
equals `now + (-ln U) * 240` seconds on the microsecond clock for some
`U ∈ (0, 1]` and lies strictly after `now` — so a feeler never occurs
while outbound connections are still needed. -/
theorem feeler_only_when_no_deficit :
    ∀ (target count : Nat) (nowMicros nextFeeler : ℝ) (r : Nat),
      ((feelerStep (numNeededPeers target count) nowMicros nextFeeler r).1 = true ↔
        numNeededPeers target count = 0 ∧ nextFeeler < nowMicros) ∧
      (0 < numNeededPeers target count →
        (feelerStep (numNeededPeers target count) nowMicros nextFeeler r).1 = false) ∧
      ((feelerStep (numNeededPeers target count) nowMicros nextFeeler r).1 = false →
        (feelerStep (numNeededPeers target count) nowMicros nextFeeler r).2 =
          nextFeeler) ∧
      ((feelerStep (numNeededPeers target count) nowMicros nextFeeler r).1 = true →
        (feelerStep (numNeededPeers target count) nowMicros nextFeeler r).2 =
          poissonNextSend nowMicros 240 r) ∧
      (r < 2 ^ 48 →
        nowMicros < poissonNextSend nowMicros 240 r ∧
        ∃ U : ℝ, 0 < U ∧ U ≤ 1 ∧
          poissonNextSend nowMicros 240 r =
            nowMicros + -Real.log U * (240 * 1000000)) := by
  intro target count nowMicros nextFeeler r
  refine ⟨?_, ?_, ?_, ?_, ?_⟩
  · by_cases hc : numNeededPeers target count = 0 ∧ nextFeeler < nowMicros <;>
      simp [feelerStep, hc]
  · intro hn
    by_cases hc : numNeededPeers target count = 0 ∧ nextFeeler < nowMicros
    · omega
    · simp [feelerStep, hc]
  · by_cases hc : numNeededPeers target count = 0 ∧ nextFeeler < nowMicros <;>
      simp [feelerStep, hc]
  · by_cases hc : numNeededPeers target count = 0 ∧ nextFeeler < nowMicros <;>
      simp [feelerStep, hc]
  · intro hr
    have hgt := poissonNextSend_gt nowMicros r hr
    refine ⟨hgt,
      Real.exp (-(poissonNextSend nowMicros 240 r - nowMicros) / (240 * 1000000)),
      Real.exp_pos _, ?_, ?_⟩
    · rw [Real.exp_le_one_iff, div_nonpos_iff]
      exact Or.inr ⟨by linarith, by norm_num⟩
    · rw [Real.log_exp]
      have hD : (240 * 1000000 : ℝ) ≠ 0 := by norm_num
      have hcancel :
          -(-(poissonNextSend nowMicros 240 r - nowMicros) / (240 * 1000000 : ℝ)) *
            (240 * 1000000) = poissonNextSend nowMicros 240 r - nowMicros := by
        field_simp
      linarith

/-- C7 witness: with the deficit met and the clock past the schedule the
step fires, and the reschedule from `now = 1` with draw `r = 5` lies
strictly in the future. -/
theorem feeler_only_when_no_deficit_witness :
    (feelerStep (numNeededPeers 0 0) 1 0 5).1 = true ∧
    (1 : ℝ) < poissonNextSend 1 240 5 :=
  ⟨(feeler_only_when_no_deficit 0 0 1 0 5).1.mpr ⟨by decide, by norm_num⟩,
    ((feeler_only_when_no_deficit 0 0 1 0 5).2.2.2.2 (by norm_num)).1⟩

/-- The selection loop performs at most `maxTries - tries` further
candidate selections. -/
theorem selectLoop_count_le (G : PeerInfo → Nat) (isFeeler : Bool)
    (groups : List Nat) (connected : List PeerInfo) (now : Int)
    (localPeer : Option PeerInfo) (maxTries : Nat) :
    ∀ (cands : List CandidateInfo) (tries : Nat),
      (selectLoop G isFeeler groups connected now localPeer maxTries cands tries).2
        ≤ maxTries - tries := by
  intro cands
  induction cands with
  | nil => intro tries; simp [selectLoop]
  | cons c rest ih =>
    intro tries
    simp only [selectLoop]
    split
    · simp
    · rename_i hle
      split
      · have h := ih (tries + 1)
        simp only []
        omega
      · simp
        omega

/-- C8 (confirmed): each discovery iteration attempts at most `max_tries`
candidate selections, with `max_tries` equal to 10 below 3 represented
network groups, 25 at 3-5 groups and 50 otherwise; a selected candidate is
rejected exactly when it is a non-feeler whose group is represented, is
already connected, was tried within the last hour while fewer than 30
tries were made, or equals the local endpoint. -/
theorem connect_loop_selection_spec :
    ∀ (G : PeerInfo → Nat) (isFeeler : Bool) (groups : List Nat)
      (connected : List PeerInfo) (now : Int) (localPeer : Option PeerInfo)
      (cands : List CandidateInfo),
      (selectLoop G isFeeler groups connected now localPeer
          (maxTriesFor groups.length) cands 0).2 ≤ maxTriesFor groups.length ∧
      (groups.length < 3 → maxTriesFor groups.length = 10) ∧
      (3 ≤ groups.length → groups.length ≤ 5 → maxTriesFor groups.length = 25) ∧
      (5 < groups.length → maxTriesFor groups.length = 50) ∧
      (∀ (tries : Nat) (cand : CandidateInfo),
        candidateReject G isFeeler groups connected now localPeer tries cand = true ↔
          ((isFeeler = false ∧ G cand.peer ∈ groups) ∨ cand.peer ∈ connected ∨
            (now - cand.lastTry < 3600 ∧ tries < 30) ∨
            localPeer = some cand.peer)) := by
  intro G isFeeler groups connected now localPeer cands
  refine ⟨?_, fun h => ?_, fun h1 h2 => ?_, fun h => ?_, fun tries cand => ?_⟩
  · have h := selectLoop_count_le G isFeeler groups connected now localPeer
      (maxTriesFor groups.length) cands 0
    omega
  · simp [maxTriesFor, h]
  · unfold maxTriesFor
    rw [if_neg (by omega), if_pos h2]
  · unfold maxTriesFor
    rw [if_neg (by omega), if_neg (by omega)]
  · simp only [candidateReject, Bool.or_eq_true, Bool.and_eq_true,
      Bool.not_eq_true', decide_eq_true_eq]
    tauto

/-- C8 witness: `connect_loop_selection_spec` at concrete inputs — the
10-try budget with no groups represented, and a rejection through the
recently-tried rule. -/
theorem connect_loop_selection_spec_witness :
    maxTriesFor ([] : List Nat).length = 10 ∧
    candidateReject (fun _ => 0) false [] [] 0 none 1 ⟨⟨"h", 1⟩, 0⟩ = true :=
  ⟨(connect_loop_selection_spec (fun _ => 0) false [] [] 0 none []).2.1
      (by norm_num),
    ((connect_loop_selection_spec (fun _ => 0) false [] [] 0 none
        []).2.2.2.2 1 ⟨⟨"h", 1⟩, 0⟩).mpr
      (Or.inr (Or.inr (Or.inl ⟨by norm_num, by norm_num⟩)))⟩

/-- After adding `h` to the entry stored at `pair`, the entry holds the
old set with `h` adjoined (unchanged when `h` was already present). -/
theorem lookupKnown_addKnownHost_self :
    ∀ (m : KnownPeers) (pair : String × Nat) (h : String) (s : List String),
      lookupKnown m pair = some s →
      lookupKnown (addKnownHost m pair h) pair =
        some (if h ∈ s then s else h :: s) := by
  intro m pair h s
  induction m with
  | nil => simp [lookupKnown]
  | cons e rest ih =>
    by_cases he : e.1 = pair
    · intro hl
      simp only [lookupKnown, if_pos he] at hl
      cases hl
      simp only [addKnownHost, if_pos he]
      by_cases hm : h ∈ e.2
      · simp [lookupKnown, hm, he]
      · simp [lookupKnown, hm, he]
    · intro hl
      simp only [lookupKnown, if_neg he] at hl
      simp only [addKnownHost, if_neg he, lookupKnown]
      exact ih hl

/-- C6 (confirmed): for a chosen neighbour, when the relayed host is
already in that neighbour's known-peers set the step changes nothing and
sends nothing; otherwise the host is recorded in the set, and a single-peer
`respond_peers_full_node` message targeted at the neighbour's session id is
emitted exactly when the session id is finalized — a neighbour without a
`node_id` receives no message. -/
theorem relay_neighbour_step_spec :
    ∀ (m : KnownPeers) (relayPeer : TimestampedPeerInfo) (c : Connection),
      (knownContains m (c.peerInfo.host, c.peerInfo.port) relayPeer.host = true →
        relayToNeighbour m relayPeer c = (m, none)) ∧
      (knownContains m (c.peerInfo.host, c.peerInfo.port) relayPeer.host = false →
        knownContains (relayToNeighbour m relayPeer c).1
          (c.peerInfo.host, c.peerInfo.port) relayPeer.host = true) ∧
      (c.nodeId = none → (relayToNeighbour m relayPeer c).2 = none) ∧
      (∀ nid, c.nodeId = some nid →
        knownContains m (c.peerInfo.host, c.peerInfo.port) relayPeer.host = false →
        (relayToNeighbour m relayPeer c).2 =
          some ⟨NodeType.fullNode, "respond_peers_full_node", [relayPeer],
            Delivery.specific, some nid⟩) := by
  intro m relayPeer c
  have hknown : ∀ hk : knownContains m (c.peerInfo.host, c.peerInfo.port)
        relayPeer.host = false,
      knownContains
        (addKnownHost
          (if (lookupKnown m (c.peerInfo.host, c.peerInfo.port)).isNone then
            ((c.peerInfo.host, c.peerInfo.port), []) :: m
          else m)
          (c.peerInfo.host, c.peerInfo.port) relayPeer.host)
        (c.peerInfo.host, c.peerInfo.port) relayPeer.host = true := by
    intro hk
    rcases hl : lookupKnown m (c.peerInfo.host, c.peerInfo.port) with _ | s
    · rw [if_pos (by simp [hl])]
      have hbase : lookupKnown (((c.peerInfo.host, c.peerInfo.port), []) :: m)
          (c.peerInfo.host, c.peerInfo.port) = some [] := by
        simp [lookupKnown]
      have := lookupKnown_addKnownHost_self
        (((c.peerInfo.host, c.peerInfo.port), []) :: m)
        (c.peerInfo.host, c.peerInfo.port) relayPeer.host [] hbase
      simp only [List.not_mem_nil, if_neg] at this
      simp [knownContains, this]
    · rw [if_neg (by simp [hl])]
      have hmem : relayPeer.host ∉ s := by
        simp only [knownContains, hl] at hk
        simpa using hk
      have := lookupKnown_addKnownHost_self m
        (c.peerInfo.host, c.peerInfo.port) relayPeer.host s hl
      rw [if_neg hmem] at this
      simp [knownContains, this]
  refine ⟨fun h => ?_, fun h => ?_, fun h => ?_, fun nid hnid h => ?_⟩
  · simp [relayToNeighbour, h]
  · simp only [relayToNeighbour, h, Bool.false_eq_true, if_false]
    rcases c.nodeId with _ | nid <;> simpa using hknown h
  · rcases hk : knownContains m (c.peerInfo.host, c.peerInfo.port)
        relayPeer.host with _ | _
    · simp [relayToNeighbour, hk, h]
    · simp [relayToNeighbour, hk]
  · simp [relayToNeighbour, h, hnid]

/-- C6 witness: `relay_neighbour_step_spec` at concrete inputs — the skip
branch on a known host, the no-session branch, and the send branch. -/
theorem relay_neighbour_step_spec_witness :
    relayToNeighbour [(("n1", 1), ["10.0.0.1"])] ⟨"10.0.0.1", 8444, 0⟩
        ⟨⟨"n1", 1⟩, some 7⟩ = ([(("n1", 1), ["10.0.0.1"])], none) ∧
    (relayToNeighbour [] ⟨"10.0.0.1", 8444, 0⟩ ⟨⟨"n2", 2⟩, none⟩).2 = none ∧
    (relayToNeighbour [] ⟨"10.0.0.1", 8444, 0⟩ ⟨⟨"n1", 1⟩, some 7⟩).2 =
      some ⟨NodeType.fullNode, "respond_peers_full_node", [⟨"10.0.0.1", 8444, 0⟩],
        Delivery.specific, some 7⟩ :=
  ⟨(relay_neighbour_step_spec [(("n1", 1), ["10.0.0.1"])] ⟨"10.0.0.1", 8444, 0⟩
      ⟨⟨"n1", 1⟩, some 7⟩).1 (by decide),
    (relay_neighbour_step_spec [] ⟨"10.0.0.1", 8444, 0⟩ ⟨⟨"n2", 2⟩, none⟩).2.2.1
      rfl,
    (relay_neighbour_step_spec [] ⟨"10.0.0.1", 8444, 0⟩
      ⟨⟨"n1", 1⟩, some 7⟩).2.2.2 7 rfl (by decide)⟩

/-- Two lists that are permutations of each other and both strictly sorted
under an injective-on-the-list key are equal. -/
theorem strictSorted_perm_eq {α : Type} (f : α → Nat) :
    ∀ {l₁ l₂ : List α}, l₁.Perm l₂ →
      l₁.Pairwise (fun a b => f a < f b) →
      l₂.Pairwise (fun a b => f a < f b) → l₁ = l₂ := by
  intro l₁
  induction l₁ with
  | nil => intro l₂ hp _ _; exact hp.nil_eq
  | cons a t ih =>
    intro l₂ hp h1 h2
    cases l₂ with
    | nil => exact absurd hp.eq_nil (List.cons_ne_nil a t)
    | cons b t₂ =>
      by_cases hab : a = b
      · subst hab
        rw [ih hp.cons_inv (List.pairwise_cons.mp h1).2 (List.pairwise_cons.mp h2).2]
      · exfalso
        have ha2 : a ∈ t₂ := by
          rcases List.mem_cons.mp (hp.mem_iff.mp (List.mem_cons_self a t)) with h | h
          · exact absurd h hab
          · exact h
        have hb1 : b ∈ t := by
          rcases List.mem_cons.mp (hp.mem_iff.mpr (List.mem_cons_self b t₂)) with h | h
          · exact absurd h.symm hab
          · exact h
        have hba : f b < f a := (List.pairwise_cons.mp h2).1 a ha2
        have hab' : f a < f b := (List.pairwise_cons.mp h1).1 b hb1
        omega

/-- Every element of the hash-sorted pair list carries its connection's
relay hash in the first component. -/
theorem relaySorted_fst (H : Nat → PeerInfo → Nat → Nat) (key day : Nat)
    (conns : List Connection) :
    ∀ p ∈ relaySorted H key day conns, p.1 = relayHash H key day p.2 := by
  intro p hp
  have hmem : p ∈ relayPairs H key day conns :=
    (List.mergeSort_perm (relayPairs H key day conns) _).mem_iff.mp hp
  rcases List.mem_map.mp hmem with ⟨c, _, hc⟩
  rw [← hc]

/-- The hash-sorted pair list is sorted by its first component. -/
theorem relaySorted_sorted (H : Nat → PeerInfo → Nat → Nat) (key day : Nat)
    (conns : List Connection) :
    (relaySorted H key day conns).Pairwise
      (fun a b : Nat × Connection => a.1 ≤ b.1) := by
  have h := @List.sorted_mergeSort (Nat × Connection)
    (fun a b => decide (a.1 ≤ b.1))
    (fun a b c h1 h2 => by
      simp only [decide_eq_true_eq] at h1 h2 ⊢
      omega)
    (fun a b => by
      simp only [Bool.or_eq_true, decide_eq_true_eq]
      exact Nat.le_total a.1 b.1)
    (relayPairs H key day conns)
  exact h.imp (by intro a b hab; simpa using hab)

/-- Choosing relay neighbours is invariant under permuting the connection
list, provided the relay hashes are pairwise distinct. -/
theorem chooseNeighbours_perm_invariant (H : Nat → PeerInfo → Nat → Nat)
    (key day numPeers : Nat) {conns conns' : List Connection}
    (hp : conns.Perm conns')
    (hd : (conns.map (relayHash H key day)).Pairwise (fun a b => a ≠ b)) :
    chooseNeighbours H key day numPeers conns =
      chooseNeighbours H key day numPeers conns' := by
  have hpp : (relayPairs H key day conns).Perm (relayPairs H key day conns') :=
    hp.map _
  have hsp : (relaySorted H key day conns).Perm (relaySorted H key day conns') :=
    ((List.mergeSort_perm _ _).trans hpp).trans (List.mergeSort_perm _ _).symm
  have hd' : (conns'.map (relayHash H key day)).Pairwise (fun a b => a ≠ b) :=
    ((hp.map (relayHash H key day)).pairwise_iff (fun h => h.symm)).mp hd
  have hne : ∀ (cs : List Connection),
      (cs.map (relayHash H key day)).Pairwise (fun a b => a ≠ b) →
      (relaySorted H key day cs).Pairwise
        (fun a b : Nat × Connection => a.1 ≠ b.1) := by
    intro cs hcs
    have h1 : (relayPairs H key day cs).Pairwise
        (fun a b : Nat × Connection => a.1 ≠ b.1) := by
      rw [relayPairs, List.pairwise_map]
      simpa using List.pairwise_map.mp hcs
    exact ((List.mergeSort_perm (relayPairs H key day cs) _).pairwise_iff
      (fun h => h.symm)).mpr h1
  have hstrict : ∀ (cs : List Connection),
      (cs.map (relayHash H key day)).Pairwise (fun a b => a ≠ b) →
      (relaySorted H key day cs).Pairwise
        (fun a b : Nat × Connection => a.1 < b.1) := by
    intro cs hcs
    exact ((relaySorted_sorted H key day cs).and (hne cs hcs)).imp
      (fun h => lt_of_le_of_ne h.1 h.2)
  have heq : relaySorted H key day conns = relaySorted H key day conns' :=
    strictSorted_perm_eq Prod.fst hsp (hstrict conns hd) (hstrict conns' hd')
  unfold chooseNeighbours
  rw [heq]

/-- C5 (confirmed): the relay walks the connections in ascending order of
`h = H(key ‖ neighbour_key ‖ cur_day)` — the chosen neighbours are the
first `num_peers` of a hash-sorted permutation of the connection list —
and with pairwise-distinct hashes the choice depends only on the set of
connected neighbours (any two orderings of the same neighbours, with the
same key and the same day `now / 86400`, choose exactly the same ones). -/
theorem relay_choice_deterministic :
    ∀ (H : Nat → PeerInfo → Nat → Nat) (key now numPeers : Nat)
      (conns conns' : List Connection),
      ((relaySorted H key (curDay now) conns).map Prod.snd).Perm conns ∧
      (((relaySorted H key (curDay now) conns).map Prod.snd).map
        (relayHash H key (curDay now))).Pairwise (fun a b => a ≤ b) ∧
      chooseNeighbours H key (curDay now) numPeers conns =
        ((relaySorted H key (curDay now) conns).map Prod.snd).take numPeers ∧
      (conns.Perm conns' →
        (conns.map (relayHash H key (curDay now))).Pairwise (fun a b => a ≠ b) →
        chooseNeighbours H key (curDay now) numPeers conns =
          chooseNeighbours H key (curDay now) numPeers conns') := by
  intro H key now numPeers conns conns'
  refine ⟨?_, ?_, ?_, fun hp hd => chooseNeighbours_perm_invariant H key
    (curDay now) numPeers hp hd⟩
  · have h1 : ((relaySorted H key (curDay now) conns).map Prod.snd).Perm
        ((relayPairs H key (curDay now) conns).map Prod.snd) :=
      (List.mergeSort_perm _ _).map _
    have h2 : (relayPairs H key (curDay now) conns).map Prod.snd = conns := by
      simp [relayPairs, List.map_map, Function.comp_def]
    rw [h2] at h1
    exact h1
  · rw [List.map_map, List.pairwise_map]
    exact (relaySorted_sorted H key (curDay now) conns).imp_of_mem
      (by
        intro a b ha hb hab
        simp only [Function.comp]
        rw [← relaySorted_fst H key (curDay now) conns a ha,
          ← relaySorted_fst H key (curDay now) conns b hb]
        exact hab)
  · unfold chooseNeighbours
    rw [List.map_take]

/-- C5 witness: with a concrete hash, key, day and three neighbours with
pairwise-distinct hashes, a reordering of the connection list chooses the
same neighbours. -/
theorem relay_choice_deterministic_witness :
    chooseNeighbours (fun _ p _ => p.port) 0 (curDay 0) 2
        [⟨⟨"a", 3⟩, none⟩, ⟨⟨"b", 1⟩, some 1⟩, ⟨⟨"c", 2⟩, some 2⟩] =
      chooseNeighbours (fun _ p _ => p.port) 0 (curDay 0) 2
        [⟨⟨"c", 2⟩, some 2⟩, ⟨⟨"b", 1⟩, some 1⟩, ⟨⟨"a", 3⟩, none⟩] :=
  (relay_choice_deterministic (fun _ p _ => p.port) 0 0 2
      [⟨⟨"a", 3⟩, none⟩, ⟨⟨"b", 1⟩, some 1⟩, ⟨⟨"c", 2⟩, some 2⟩]
      [⟨⟨"c", 2⟩, some 2⟩, ⟨⟨"b", 1⟩, some 1⟩, ⟨⟨"a", 3⟩, none⟩]).2.2.2
    (by decide) (by decide)

/-- Overwriting an existing key of `connection_time_pretest` makes lookup
return the new value. -/
theorem lookupPretest_setPretest_self :
    ∀ (p : Pretest) (hs : String) (v r : Int),
      lookupPretest p hs = some r →
      lookupPretest (setPretest p hs v) hs = some v := by
  intro p hs v r
  induction p with
  | nil => simp [lookupPretest]
  | cons e rest ih =>
    by_cases he : e.1 = hs
    · intro _
      simp [setPretest, lookupPretest, he]
    · intro hl
      simp only [lookupPretest, if_neg he] at hl
      simp only [setPretest, if_neg he, lookupPretest]
      exact ih hl

/-- Overwriting one key of `connection_time_pretest` leaves other keys
unchanged. -/
theorem lookupPretest_setPretest_ne :
    ∀ (p : Pretest) (hs : String) (v : Int) (hs2 : String), hs2 ≠ hs →
      lookupPretest (setPretest p hs v) hs2 = lookupPretest p hs2 := by
  intro p hs v hs2 hne
  induction p with
  | nil => simp [setPretest]
  | cons e rest ih =>
    by_cases he : e.1 = hs
    · simp only [setPretest, if_pos he, lookupPretest]
      rw [if_neg (fun hh => hne hh.symm), if_neg (fun hh => hne (hh.symm.trans he))]
    · simp only [setPretest, if_neg he, lookupPretest]
      by_cases he2 : e.1 = hs2
      · rw [if_pos he2, if_pos he2]
      · rw [if_neg he2, if_neg he2]
        exact ih

/-- One `update_connection_time` event behaves on its host like `connStep`
on the recorded time, and leaves every other host's record unchanged. -/
theorem updateConnTimeStep_spec (p : Pretest) (hs : String) (t : Int) :
    (updateConnTimeStep p hs t).1 = (connStep (lookupPretest p hs) t).1 ∧
    lookupPretest (updateConnTimeStep p hs t).2 hs =
      some (connStep (lookupPretest p hs) t).2 ∧
    (∀ hs2, hs2 ≠ hs → lookupPretest (updateConnTimeStep p hs t).2 hs2 =
      lookupPretest p hs2) := by
  rcases hl : lookupPretest p hs with _ | r
  · have h1 : lookupPretest ((hs, t) :: p) hs = some t := by simp [lookupPretest]
    have hcond : ¬ (t - t > 60) := by omega
    refine ⟨?_, ?_, ?_⟩
    · simp [updateConnTimeStep, connStep, hl, h1, hcond]
    · simp [updateConnTimeStep, connStep, hl, h1, hcond]
    · intro hs2 hne
      simp only [updateConnTimeStep, hl, Option.isNone_none, if_pos, h1,
        Option.getD_some, hcond, if_false, lookupPretest]
      rw [if_neg (fun hh => hne hh.symm)]
  · by_cases hc : t - r > 60
    · refine ⟨?_, ?_, ?_⟩
      · simp [updateConnTimeStep, connStep, hl, hc]
      · simp [updateConnTimeStep, connStep, hl, hc]
        exact lookupPretest_setPretest_self p hs t r hl
      · intro hs2 hne
        simp [updateConnTimeStep, hl, hc]
        exact lookupPretest_setPretest_ne p hs t hs2 hne
    · refine ⟨?_, ?_, ?_⟩
      · simp [updateConnTimeStep, connStep, hl, hc]
      · simp [updateConnTimeStep, connStep, hl, hc]
      · intro hs2 hne
        simp [updateConnTimeStep, hl, hc]

/-- The per-host projection of the event trace equals the single-host
`connStep` run on that host's event times. -/
theorem processEvents_filter_eq (host : String) :
    ∀ (events : List (String × Int)) (p : Pretest),
      ((processEvents p events).filter fun e => decide (e.1 = host)).map
          (fun e => (e.2.1, e.2.2)) =
        connRun (lookupPretest p host)
          ((events.filter fun e => decide (e.1 = host)).map fun e => e.2) := by
  intro events
  induction events with
  | nil => intro p; simp [processEvents, connRun]
  | cons ev rest ih =>
    intro p
    rcases ev with ⟨h, t⟩
    by_cases hh : h = host
    · subst hh
      simp only [processEvents]
      rw [List.filter_cons, List.filter_cons, if_pos (by simp), if_pos (by simp)]
      simp only [List.map_cons]
      rw [ih ((updateConnTimeStep p h t).2)]
      rw [(updateConnTimeStep_spec p h t).2.1]
      simp only [connRun]
      rw [(updateConnTimeStep_spec p h t).1]
    · simp only [processEvents]
      rw [List.filter_cons, List.filter_cons, if_neg (by simp [hh]),
        if_neg (by simp [hh])]
      rw [ih ((updateConnTimeStep p h t).2)]
      rw [(updateConnTimeStep_spec p h t).2.2 host (fun hh2 => hh hh2.symm)]

/-- Along a single-host run started from a recorded time `r`, consecutive
connect times are more than 60 seconds apart, and the first one is more
than 60 seconds after `r`. -/
theorem connTimes_chain :
    ∀ (ts : List Int) (r : Int),
      List.Chain' (fun a b => a + 60 < b) (connTimes (some r) ts) ∧
      (∀ x, (connTimes (some r) ts).head? = some x → r + 60 < x) := by
  intro ts
  induction ts with
  | nil =>
    intro r
    refine ⟨by simp [connTimes, connRun], fun x hx => ?_⟩
    simp [connTimes, connRun] at hx
  | cons t rest ih =>
    intro r
    by_cases hc : t - r > 60
    · have hct : connTimes (some r) (t :: rest) = t :: connTimes (some t) rest := by
        simp [connTimes, connRun, connStep, hc]
      refine ⟨?_, fun x hx => ?_⟩
      · rw [hct, List.chain'_cons']
        exact ⟨fun y hy => (ih t).2 y (by simpa using hy), (ih t).1⟩
      · rw [hct] at hx
        simp only [List.head?_cons, Option.some.injEq] at hx
        omega
    · have hct : connTimes (some r) (t :: rest) = connTimes (some r) rest := by
        simp [connTimes, connRun, connStep, hc]
      rw [hct]
      exact ih r

/-- `connectTimesFor` is the single-host connect-time list of the host's
event times. -/
theorem connectTimesFor_eq (host : String) (events : List (String × Int)) :
    connectTimesFor host events =
      connTimes none
        ((events.filter fun e => decide (e.1 = host)).map fun e => e.2) := by
  have hb := processEvents_filter_eq host events []
  have hl : lookupPretest ([] : Pretest) host = none := rfl
  rw [hl] at hb
  unfold connectTimesFor connTimes
  rw [← hb, List.filter_map, List.map_map]
  rw [List.filter_filter]
  refine congrArg _ (List.filter_congr ?_)
  intro a _
  simp [Function.comp, Bool.and_comm]

/-- C10 (confirmed): `update_connection_time` connects only when a time is
already recorded for the host and lies more than 60 seconds in the past;
a connect resets the record to the event time; the first event for a host
(from an empty dict) never connects; and along any event trace the connect
times of each host are pairwise more than 60 seconds apart. -/
theorem update_connection_time_rate_limit :
    (∀ (p : Pretest) (hs : String) (t : Int),
      ((updateConnTimeStep p hs t).1 = true ↔
        ∃ r, lookupPretest p hs = some r ∧ r + 60 < t)) ∧
    (∀ (p : Pretest) (hs : String) (t : Int),
      (updateConnTimeStep p hs t).1 = true →
      lookupPretest (updateConnTimeStep p hs t).2 hs = some t) ∧
    (∀ (host : String) (events : List (String × Int)) (e : String × Int × Bool),
      ((processEvents [] events).filter fun e2 => decide (e2.1 = host)).head? =
          some e → e.2.2 = false) ∧
    (∀ (host : String) (events : List (String × Int)),
      List.Chain' (fun a b => a + 60 < b) (connectTimesFor host events)) := by
  refine ⟨fun p hs t => ?_, fun p hs t hb => ?_, fun host events e hhead => ?_,
    fun host events => ?_⟩
  · rw [(updateConnTimeStep_spec p hs t).1]
    rcases hl : lookupPretest p hs with _ | r
    · have hcond : ¬ (t - t > 60) := by omega
      simp [connStep, hcond]
    · by_cases hc : t - r > 60
      · simp only [connStep, Option.getD_some, if_pos hc, Option.some.injEq]
        constructor
        · intro _
          exact ⟨r, rfl, by omega⟩
        · intro _; trivial
      · simp only [connStep, Option.getD_some, if_neg hc, Option.some.injEq]
        constructor
        · intro hfalse
          exact absurd hfalse Bool.false_ne_true
        · rintro ⟨r2, hr2, hlt⟩
          obtain rfl : r = r2 := hr2
          exact absurd hlt (by omega)
  · rcases hl : lookupPretest p hs with _ | r
    · have hfst := (updateConnTimeStep_spec p hs t).1
      rw [hl] at hfst
      have : ¬ (t - t > 60) := by omega
      simp [connStep, this] at hfst
      rw [hb] at hfst
      exact absurd hfst (by simp)
    · have hfst := (updateConnTimeStep_spec p hs t).1
      rw [hl] at hfst
      have hlook := (updateConnTimeStep_spec p hs t).2.1
      rw [hl] at hlook
      by_cases hc : t - r > 60
      · rw [hlook]
        simp [connStep, hc]
      · rw [hb] at hfst
        simp [connStep, hc] at hfst
  · have hb := processEvents_filter_eq host events []
    have hl : lookupPretest ([] : Pretest) host = none := rfl
    rw [hl] at hb
    rcases hts : ((events.filter fun e2 => decide (e2.1 = host)).map fun e2 => e2.2)
        with _ | ⟨t, ts2⟩
    · rw [hts] at hb
      simp only [connRun, List.map_eq_nil_iff] at hb
      rw [hb] at hhead
      simp at hhead
    · rw [hts] at hb
      have hh : (((processEvents [] events).filter fun e2 =>
          decide (e2.1 = host)).map (fun e2 => (e2.2.1, e2.2.2))).head? =
          some (e.2.1, e.2.2) := by
        rw [List.head?_map, hhead]
        rfl
      rw [hb] at hh
      have hcond : ¬ (t - t > 60) := by omega
      have hfirst : connStep none t = (false, t) := by
        simp [connStep, hcond]
      simp only [connRun, hfirst, List.head?_cons, Option.some.injEq] at hh
      have := congrArg Prod.snd hh
      exact this.symm
  · rw [connectTimesFor_eq]
    rcases hts : ((events.filter fun e2 => decide (e2.1 = host)).map fun e2 => e2.2)
        with _ | ⟨t, ts2⟩
    · rw [hts]
      simp [connTimes, connRun]
    · rw [hts]
      have hcond : ¬ (t - t > 60) := by omega
      have h0 : connTimes none (t :: ts2) = connTimes (some t) ts2 := by
        simp [connTimes, connRun, connStep, hcond]
      rw [h0]
      exact (connTimes_chain ts2 t).1

/-- C10 witness: `update_connection_time_rate_limit` at concrete inputs —
a connect 100 seconds after the recorded time, the record reset it causes,
and the non-connecting first event of a one-event trace. -/
theorem update_connection_time_rate_limit_witness :
    (updateConnTimeStep [("a", 0)] "a" 100).1 = true ∧
    lookupPretest (updateConnTimeStep [("a", 0)] "a" 100).2 "a" = some 100 ∧
    ("a", (5 : Int), false).2.2 = false :=
  ⟨(update_connection_time_rate_limit.1 [("a", 0)] "a" 100).mpr
      ⟨0, rfl, by norm_num⟩,
    update_connection_time_rate_limit.2.1 [("a", 0)] "a" 100 (by decide),
    update_connection_time_rate_limit.2.2.1 "a" [("a", 5)] ("a", 5, false)
      (by decide)⟩

end NodeDiscovery
